import Mathlib

/-!
Verification development for the crypto arbitrage monitor
(`arb_monitor.py` and `kalshi.py`).

Python numbers are embedded as exact rationals (`ℚ`) and integers (`ℤ`);
Python `None` as `Option.none`; code that can raise an exception returns
`Except`.  Dictionaries built with distinct string keys are embedded as
association lists in insertion order, read back with `List.lookup`.
-/

set_option maxHeartbeats 1000000
set_option linter.unusedVariables false

/-- Exceptions raised by the embedded code paths: `ZeroDivisionError` from the
unguarded division in `calculate_fair_value`, and `AttributeError` from calling
`.get` on a string value (reachable only if an `_error` entry were stored under
a coin key, which the builders never do). -/
inductive PyErr where
  | zeroDivisionError
  | attributeError
deriving DecidableEq

deriving instance DecidableEq for Except

/-- Model of the Python builtin `round` on an exact rational: round half to
even (banker's rounding), which is what Python 3 `round(float)` implements. -/
def pyRound (q : ℚ) : ℤ :=
  if q - ⌊q⌋ < 1/2 then ⌊q⌋
  else if 1/2 < q - ⌊q⌋ then ⌊q⌋ + 1
  else if ⌊q⌋ % 2 = 0 then ⌊q⌋ else ⌊q⌋ + 1

/-- Embedding of `calculate_fair_value` (arb_monitor.py lines 103-126).
`None` inputs return `None`; the division `(current_price - strike_price) /
strike_price` is unguarded in the source, so `strike_price = 0` raises
`ZeroDivisionError` (Python raises it for float division by zero as well).
The `time_to_expiry_minutes` parameter is accepted and never used. -/
def calculate_fair_value (current_price strike_price : Option ℚ)
    (time_to_expiry_minutes : ℚ) : Except PyErr (Option ℤ) :=
  match strike_price, current_price with
  | none, _ => .ok none
  | _, none => .ok none
  | some s, some c =>
    if s = 0 then .error .zeroDivisionError
    else
      let pct_diff := (c - s) / s * 100
      let fair_value :=
        if pct_diff > 0 then min (50 + pct_diff * 15) 95
        else max (50 + pct_diff * 15) 5
      .ok (some (pyRound fair_value))

/-- The pre-rounding value computed by `calculate_fair_value` for non-null
inputs (the body of lines 115-124 before `round`). -/
def fv_raw (current_price strike_price : ℚ) : ℚ :=
  let pct_diff := (current_price - strike_price) / strike_price * 100
  if pct_diff > 0 then min (50 + pct_diff * 15) 95
  else max (50 + pct_diff * 15) 5

/-- Model of Python `str.split(sep)` for a one-character separator, on
character lists: splits at every occurrence of `sep`; always non-empty. -/
def splitOnChar (sep : Char) : List Char → List (List Char)
  | [] => [[]]
  | c :: t =>
    let r := splitOnChar sep t
    if c = sep then [] :: r else (c :: r.headD []) :: r.tail

/-- Whether `needle` occurs at the start of the second list. -/
def beginsWith : List Char → List Char → Bool
  | [], _ => true
  | _ :: _, [] => false
  | a :: as, b :: bs => a == b && beginsWith as bs

/-- Model of the Python substring test `needle in hay`. -/
def containsSeq (needle : List Char) : List Char → Bool
  | [] => needle.isEmpty
  | c :: t => beginsWith needle (c :: t) || containsSeq needle t

/-- Strip leading and trailing whitespace, as Python `float()` does before
parsing. -/
def trimWs (cs : List Char) : List Char :=
  ((cs.dropWhile Char.isWhitespace).reverse.dropWhile Char.isWhitespace).reverse

/-- Numeric value of a list of decimal digit characters. -/
def digitsToNat (cs : List Char) : ℕ :=
  cs.foldl (fun a c => 10 * a + (c.toNat - 48)) 0

/-- Syntactic part of the Python builtin `float(str)` on the inputs this
repository can feed it: optional surrounding whitespace, optional sign,
decimal digits with an optional fractional part.  Returns the sign, the
integer-part digits' value, the fractional-part digits' value and the number
of fractional digits.  Exponent notation, `inf`/`nan` and underscore
separators never appear in the parsed subtitles and are not modeled; any
other input is a parse failure (`none`), modeling `ValueError`. -/
def pyFloatParts (s : List Char) : Option (Bool × ℕ × ℕ × ℕ) :=
  let cs := trimWs s
  let (neg, cs₁) :=
    match cs with
    | '-' :: t => (true, t)
    | '+' :: t => (false, t)
    | _ => (false, cs)
  let ip := cs₁.takeWhile Char.isDigit
  let r₁ := cs₁.dropWhile Char.isDigit
  match r₁ with
  | [] => if ip.isEmpty then none else some (neg, digitsToNat ip, 0, 0)
  | '.' :: t =>
    let fp := t.takeWhile Char.isDigit
    let r₂ := t.dropWhile Char.isDigit
    if r₂.isEmpty && !(ip.isEmpty && fp.isEmpty) then
      some (neg, digitsToNat ip, digitsToNat fp, fp.length)
    else none
  | _ => none

/-- Model of the Python builtin `float(str)`: the parsed parts assembled into
an exact rational. -/
def pyFloat (s : List Char) : Option ℚ :=
  (pyFloatParts s).map (fun p =>
    (if p.1 then -1 else 1) * ((p.2.1 : ℚ) + (p.2.2.1 : ℚ) / (10 : ℚ) ^ p.2.2.2))

/-- Characters allowed in a numeric literal with optional thousands
separators: digits, comma, decimal point. -/
def numChars : List Char := ['0','1','2','3','4','5','6','7','8','9',',','.']

/-- A numeric literal with optional thousands separators, as the claims use
the phrase: non-empty, built from digits, commas and a decimal point, and
parsing as a float once commas are removed. -/
def isNumLit (s : String) : Bool :=
  !s.toList.isEmpty && s.toList.all (fun c => decide (c ∈ numChars))
    && (pyFloat (s.toList.filter (fun c => c != ','))).isSome

/-- The numeric value of a numeric literal (commas removed, parsed as float). -/
def numLitVal (s : String) : ℚ :=
  (pyFloat (s.toList.filter (fun c => c != ','))).getD 0

/-- Embedding of the strike-parsing block of `get_kalshi_15m_markets`
(arb_monitor.py lines 54-60): if the subtitle contains `"Price to beat:"`,
take `subtitle.split("$")[1]` (the text between the first and second `$`),
remove all commas, and parse it as a float; any failure (missing second
segment, i.e. `IndexError`, or `ValueError` from `float`) is caught and
yields `None`. -/
def parse_strike (subtitle : String) : Option ℚ :=
  if containsSeq ("Price to beat:".toList) subtitle.toList then
    match (splitOnChar '$' subtitle.toList)[1]? with
    | none => none
    | some part => pyFloat (part.filter (fun c => c != ','))
  else none

/-- Model of Python `str.upper()` for the ASCII strings this repository
uppercases (HTTP method names, coin symbols). -/
def pyUpper (s : String) : String := String.mk (s.toList.map Char.toUpper)

/-- Embedding of the message construction in `KalshiClient._headers`
(kalshi.py lines 47-53): `timestamp + method.upper() + path.split('?')[0]`.
The RSA-PSS signature over this message is randomized and external to the
model; the claims concern the signed message only. -/
def signing_message (timestamp method path : String) : String :=
  timestamp ++ pyUpper method ++ String.mk ((splitOnChar '?' path.toList).headD [])

/-- A raw market object as returned by the markets endpoint; every field is
read in the source with `.get`, so every field may be absent. -/
structure RawMarket where
  ticker : Option String
  yes_bid : Option ℤ
  yes_ask : Option ℤ
  no_bid : Option ℤ
  no_ask : Option ℤ
  close_time : Option String
  volume : Option ℤ
  yes_sub_title : Option String
  rules_primary : Option String
deriving DecidableEq

/-- The per-coin market entry stored by `get_kalshi_15m_markets`
(arb_monitor.py lines 62-72); all keys are always present in the stored
dict, with the source's `.get` defaults applied. -/
structure Market15 where
  ticker : Option String
  strike : Option ℚ
  yes_bid : ℤ
  yes_ask : ℤ
  no_bid : ℤ
  no_ask : ℤ
  close_time : Option String
  volume : ℤ
  subtitle : String
deriving DecidableEq

/-- A value of the `markets` dict built by `get_kalshi_15m_markets`: a market
entry under a coin key, or an error string under a `<coin>_error` key. -/
inductive Entry15 where
  | market (m : Market15)
  | err (msg : String)
deriving DecidableEq

/-- The liquidity filter and first-match selection of the market loop
(arb_monitor.py lines 48-49, 73): the first market with
`yes_bid > 0 or yes_ask < 100` (defaults 0). -/
def select15m (ms : List RawMarket) : Option RawMarket :=
  ms.find? (fun m => decide (m.yes_bid.getD 0 > 0) || decide (m.yes_ask.getD 0 < 100))

/-- The entry dict built for a selected market (arb_monitor.py lines 62-72). -/
def mkEntry15 (m : RawMarket) : Market15 :=
  { ticker := m.ticker
    strike := parse_strike (m.yes_sub_title.getD (""))
    yes_bid := m.yes_bid.getD 0
    yes_ask := m.yes_ask.getD 0
    no_bid := m.no_bid.getD 0
    no_ask := m.no_ask.getD 0
    close_time := m.close_time
    volume := m.volume.getD 0
    subtitle := m.yes_sub_title.getD ("") }

/-- One iteration of the series loop of `get_kalshi_15m_markets`
(arb_monitor.py lines 45-75): the HTTP request is abstracted as
`fetch series`, returning the parsed market list or the raised exception's
string (`str(e)`); on failure the error string is stored under
`<coin>_error`, on success the first market passing the filter is stored
under `coin` (nothing is stored when no market passes). -/
def series15_step (fetch : String → Except String (List RawMarket))
    (series coin : String) : List (String × Entry15) :=
  match fetch series with
  | .error e => [(coin ++ "_error", .err e)]
  | .ok ms =>
    match select15m ms with
    | none => []
    | some m => [(coin, .market (mkEntry15 m))]

/-- Embedding of `get_kalshi_15m_markets` (arb_monitor.py lines 41-77): the
two series iterations in order; the result dict is the association list of
stored entries (all keys distinct). -/
def get_kalshi_15m_markets (fetch : String → Except String (List RawMarket)) :
    List (String × Entry15) :=
  series15_step fetch ("KXBTC15M") ("btc") ++ series15_step fetch ("KXETH15M") ("eth")

/-- An entry of the daily-markets summary (arb_monitor.py lines 90-96). -/
structure DailyEntry where
  ticker : Option String
  yes_bid : ℤ
  yes_ask : ℤ
  volume : ℤ
  subtitle : String
deriving DecidableEq

/-- A value of the dict built by `get_kalshi_daily_markets`. -/
inductive DailyVal where
  | markets (l : List DailyEntry)
  | err (msg : String)
deriving DecidableEq

/-- The summary dict entry for one daily market (arb_monitor.py lines 90-96). -/
def mkDaily (m : RawMarket) : DailyEntry :=
  { ticker := m.ticker
    yes_bid := m.yes_bid.getD 0
    yes_ask := m.yes_ask.getD 0
    volume := m.volume.getD 0
    subtitle := m.yes_sub_title.getD ("") }

/-- One iteration of the series loop of `get_kalshi_daily_markets`
(arb_monitor.py lines 84-98). -/
def seriesDaily_step (fetch : String → Except String (List RawMarket))
    (series coin : String) : List (String × DailyVal) :=
  match fetch series with
  | .error e => [(coin ++ "_error", .err e)]
  | .ok ms =>
    let active := ms.filter (fun m => decide (m.volume.getD 0 > 0) || decide (m.yes_bid.getD 0 > 0))
    if active.isEmpty then [] else [(coin, .markets ((active.take 5).map mkDaily))]

/-- Embedding of `get_kalshi_daily_markets` (arb_monitor.py lines 80-100). -/
def get_kalshi_daily_markets (fetch : String → Except String (List RawMarket)) :
    List (String × DailyVal) :=
  seriesDaily_step fetch ("KXDOGE") ("doge") ++ seriesDaily_step fetch ("KXBTC") ("btc_daily")

/-- An opportunity dict appended by `analyze_arbitrage` (arb_monitor.py lines
153-177).  A `BUY_YES` dict carries `market_ask` and no `market_bid` key, a
`SELL_YES` dict the reverse; absence of the key is `none`.  The
human-readable `reasoning` string (locale-formatted floats) is rendering
only, inspected by no claim, and is not modeled. -/
structure Opportunity where
  type : String
  coin : String
  ticker : Option String
  current_price : ℚ
  strike : ℚ
  fair_value : ℤ
  market_ask : Option ℤ
  market_bid : Option ℤ
  edge : ℤ
deriving DecidableEq

/-- The `BUY_YES` opportunity dict (arb_monitor.py lines 153-163). -/
def buyOpp (coin : String) (m : Market15) (current_price strike : ℚ)
    (fair_value : ℤ) : Opportunity :=
  { type := "BUY_YES"
    coin := pyUpper coin
    ticker := m.ticker
    current_price := current_price
    strike := strike
    fair_value := fair_value
    market_ask := some m.yes_ask
    market_bid := none
    edge := fair_value - m.yes_ask }

/-- The `SELL_YES` opportunity dict (arb_monitor.py lines 167-177). -/
def sellOpp (coin : String) (m : Market15) (current_price strike : ℚ)
    (fair_value : ℤ) : Opportunity :=
  { type := "SELL_YES"
    coin := pyUpper coin
    ticker := m.ticker
    current_price := current_price
    strike := strike
    fair_value := fair_value
    market_ask := none
    market_bid := some m.yes_bid
    edge := m.yes_bid - fair_value }

/-- The body of one iteration of the `analyze_arbitrage` loop (arb_monitor.py
lines 134-177) for a given coin.  `prices` maps a key to its spot price;
a missing key and a `None` value behave identically in the source
(`coin not in prices or prices[coin] is None`) and are both `none` here.
Entries built by `get_kalshi_15m_markets` always carry the `yes_ask` /
`yes_bid` keys, so the source's `.get` defaults (100 and 0) are never
exercised and the stored field is read directly.  If an error string were
stored under the coin key itself, `market.get("strike")` on a `str` would
raise `AttributeError`. -/
def analyze_one (prices : String → Option ℚ)
    (markets_15m : List (String × Entry15)) (coin : String) :
    Except PyErr (List Opportunity) :=
  match List.lookup coin markets_15m, prices coin with
  | none, _ => .ok []
  | some _, none => .ok []
  | some (.err _), some _ => .error .attributeError
  | some (.market m), some current_price =>
    match m.strike with
    | none => .ok []
    | some strike =>
      match calculate_fair_value (some current_price) (some strike) 15 with
      | .error e => .error e
      | .ok none => .ok []
      | .ok (some fair_value) =>
        .ok ((if fair_value > m.yes_ask + 5 then [buyOpp coin m current_price strike fair_value] else [])
          ++ (if fair_value < m.yes_bid - 5 then [sellOpp coin m current_price strike fair_value] else []))

/-- Embedding of `analyze_arbitrage` (arb_monitor.py lines 129-179): the loop
over `["btc", "eth"]`, appending each coin's opportunities in order. -/
def analyze_arbitrage (prices : String → Option ℚ)
    (markets_15m : List (String × Entry15)) : Except PyErr (List Opportunity) :=
  match analyze_one prices markets_15m ("btc") with
  | .error e => .error e
  | .ok o1 =>
    match analyze_one prices markets_15m ("eth") with
    | .error e => .error e
    | .ok o2 => .ok (o1 ++ o2)

/-- The order dict built by `place_order`.  `yes_price` / `no_price` model
dict keys that may be absent (`none`) or present with a possibly-`None`
value (`some (some p)` / `some none`). -/
structure Order where
  ticker : String
  side : String
  action : String
  count : ℤ
  type : String
  yes_price : Option (Option ℤ)
  no_price : Option (Option ℤ)
deriving DecidableEq

/-- Embedding of `KalshiClient.place_order` (kalshi.py lines 118-147): the
order dict is built from the arguments as given — the source performs no
validation of `side`, `action`, `count`, `type` or `price` — and, when
`type == "limit"` and `price is not None`, the price keys are added with the
price under the field matching `side` and `None` under the other; the dict
is then dispatched via `_request` (external I/O, outside the model). -/
def place_order (ticker side action : String) (count : ℤ) (type : String)
    (price : Option ℤ) : Order :=
  let order : Order :=
    { ticker := ticker, side := side, action := action, count := count,
      type := type, yes_price := none, no_price := none }
  match price with
  | none => order
  | some p =>
    if type = "limit" then
      { order with
        yes_price := some (if side = "yes" then some p else none)
        no_price := some (if side = "no" then some p else none) }
    else order

/-- The price dict built by `get_crypto_prices` on success (arb_monitor.py
lines 29-36): the six keys are always present, each value possibly null. -/
structure SpotPrices where
  btc : Option ℚ
  eth : Option ℚ
  doge : Option ℚ
  btc_24h : Option ℚ
  eth_24h : Option ℚ
  doge_24h : Option ℚ
deriving DecidableEq

/-- Key lookup in the success-shaped price dict. -/
def pricesLookup (p : SpotPrices) : String → Option ℚ := fun k =>
  if k = "btc" then p.btc
  else if k = "eth" then p.eth
  else if k = "doge" then p.doge
  else if k = "btc_24h" then p.btc_24h
  else if k = "eth_24h" then p.eth_24h
  else if k = "doge_24h" then p.doge_24h
  else none

/-- The structured fields of the dict returned by `main` (arb_monitor.py
lines 245-251).  The `report` string produced by `format_report` is
rendering only (locale-formatted floats), inspected by no claim, and is not
modeled. -/
structure MainResult where
  prices : SpotPrices
  markets_15m : List (String × Entry15)
  opportunities : List Opportunity
  has_opportunities : Bool
deriving DecidableEq

/-- Embedding of `main` (arb_monitor.py lines 227-251).  The outcome of
`get_crypto_prices` is either the success shape or the `{"error": str(e)}`
shape, modeled as `Except`; the two market fetches are abstracted as
oracles.  On a price-feed error, `main` prints
`"Error fetching prices: <e>"` (the first component) and returns `None`
before constructing the client or calling any market endpoint. -/
def main_model (pricesResult : Except String SpotPrices)
    (fetch15 fetchDaily : String → Except String (List RawMarket)) :
    Except PyErr (Option String × Option MainResult) :=
  match pricesResult with
  | .error e => .ok (some ("Error fetching prices: " ++ e), none)
  | .ok prices =>
    let markets_15m := get_kalshi_15m_markets fetch15
    let _markets_daily := get_kalshi_daily_markets fetchDaily
    match analyze_arbitrage (pricesLookup prices) markets_15m with
    | .error err => .error err
    | .ok opportunities =>
      .ok (none, some { prices := prices, markets_15m := markets_15m,
                        opportunities := opportunities,
                        has_opportunities := decide (opportunities.length > 0) })

/-- Concrete scenario (spec §8): fair value 80 against ask 70 (bid 65). -/
def mktBuy : Market15 :=
  { ticker := some ("TB"), strike := some 100, yes_bid := 65, yes_ask := 70,
    no_bid := 0, no_ask := 0, close_time := none, volume := 0, subtitle := ("sub") }

/-- Spot prices for the buy scenario: BTC at 102 (2% above strike 100
gives fair value 80). -/
def pricesBuy : String → Option ℚ := fun c => if c = "btc" then some 102 else none

/-- Concrete scenario (spec §8): fair value 30 against bid 40 (ask 99). -/
def mktSell : Market15 :=
  { ticker := some ("TS"), strike := some 300, yes_bid := 40, yes_ask := 99,
    no_bid := 0, no_ask := 0, close_time := none, volume := 0, subtitle := ("sub") }

/-- Spot prices for the sell scenario: ETH at 296 (4/3 % below strike 300
gives fair value 30). -/
def pricesSell : String → Option ℚ := fun c => if c = "eth" then some 296 else none

/-- Concrete scenario (spec §8): fair value 55 within the buffer of
bid 50 / ask 60. -/
def mktFlat : Market15 :=
  { ticker := some ("TF"), strike := some 300, yes_bid := 50, yes_ask := 60,
    no_bid := 0, no_ask := 0, close_time := none, volume := 0, subtitle := ("sub") }

/-- Spot prices for the no-opportunity scenario: BTC at 301 (1/3 % above
strike 300 gives fair value 55). -/
def pricesFlat : String → Option ℚ := fun c => if c = "btc" then some 301 else none

/-- A healthy raw market used to witness error isolation. -/
def w6raw : RawMarket :=
  { ticker := some ("TE"), yes_bid := some 50, yes_ask := some 60, no_bid := none,
    no_ask := none, close_time := none, volume := some 10,
    yes_sub_title := some ("Price to beat: $100"), rules_primary := none }

/-- A fetch oracle whose BTC series raises while the ETH series succeeds. -/
def w6fetch : String → Except String (List RawMarket) :=
  fun s => if s = "KXBTC15M" then .error ("boom") else .ok [w6raw]

theorem pyRound_lb (q : ℚ) : ⌊q⌋ ≤ pyRound q := by
  unfold pyRound; split_ifs <;> omega

theorem pyRound_ub (q : ℚ) : pyRound q ≤ ⌊q⌋ + 1 := by
  unfold pyRound; split_ifs <;> omega

theorem pyRound_intCast (n : ℤ) : pyRound (n : ℚ) = n := by
  unfold pyRound
  rw [Int.floor_intCast]
  have h : (n : ℚ) - (n : ℤ) < 1/2 := by norm_num
  rw [if_pos h]

theorem pyRound_mono {q r : ℚ} (h : q ≤ r) : pyRound q ≤ pyRound r := by
  have hf : ⌊q⌋ ≤ ⌊r⌋ := Int.floor_le_floor h
  rcases eq_or_lt_of_le hf with heq | hlt
  · have h' : q - (⌊q⌋ : ℚ) ≤ r - (⌊q⌋ : ℚ) := by linarith
    unfold pyRound
    rw [← heq]
    split_ifs <;> first | omega | linarith
  · have h1 := pyRound_ub q
    have h2 := pyRound_lb r
    omega

theorem int_le_pyRound {n : ℤ} {q : ℚ} (h : (n : ℚ) ≤ q) : n ≤ pyRound q := by
  have := pyRound_mono h
  rwa [pyRound_intCast] at this

theorem pyRound_le_int {q : ℚ} {n : ℤ} (h : q ≤ (n : ℚ)) : pyRound q ≤ n := by
  have := pyRound_mono h
  rwa [pyRound_intCast] at this

theorem cfv_eq {s : ℚ} (c t : ℚ) (hs : s ≠ 0) :
    calculate_fair_value (some c) (some s) t = .ok (some (pyRound (fv_raw c s))) := by
  simp [calculate_fair_value, fv_raw, hs]

theorem fv_raw_le (c s : ℚ) : fv_raw c s ≤ 95 := by
  unfold fv_raw
  dsimp only
  split_ifs with h
  · exact min_le_right _ _
  · exact max_le (by linarith) (by norm_num)

theorem fv_raw_ge (c s : ℚ) : 5 ≤ fv_raw c s := by
  unfold fv_raw
  dsimp only
  split_ifs with h
  · exact le_min (by linarith) (by norm_num)
  · exact le_max_right _ _

theorem fv_raw_mono {s : ℚ} (hs : 0 < s) {c₁ c₂ : ℚ} (h : c₁ ≤ c₂) :
    fv_raw c₁ s ≤ fv_raw c₂ s := by
  unfold fv_raw
  dsimp only
  have hd : (c₁ - s) / s * 100 ≤ (c₂ - s) / s * 100 := by
    have h1 : (c₁ - s) / s ≤ (c₂ - s) / s :=
      div_le_div_of_nonneg_right (by linarith) hs.le
    linarith
  split_ifs with h1 h2
  · exact min_le_min (by linarith) le_rfl
  · exact absurd (lt_of_lt_of_le h1 hd) h2
  · exact max_le (le_min (by linarith) (by linarith)) (le_min (by linarith) (by norm_num))
  · exact max_le_max (by linarith) le_rfl

theorem cfv_bounds {c s t : ℚ} {v : ℤ} (hs : s ≠ 0)
    (h : calculate_fair_value (some c) (some s) t = .ok (some v)) :
    5 ≤ v ∧ v ≤ 95 := by
  rw [cfv_eq c t hs] at h
  simp only [Except.ok.injEq, Option.some.injEq] at h
  subst h
  constructor
  · exact int_le_pyRound (by push_cast; linarith [fv_raw_ge c s])
  · exact pyRound_le_int (by push_cast; linarith [fv_raw_le c s])

theorem splitOnChar_ne_nil (sep : Char) (cs : List Char) : splitOnChar sep cs ≠ [] := by
  cases cs with
  | nil => simp [splitOnChar]
  | cons c t =>
    simp only [splitOnChar]
    split_ifs <;> simp

theorem splitOnChar_headD (sep : Char) (cs : List Char) :
    (splitOnChar sep cs).headD [] = cs.takeWhile (fun c => c != sep) := by
  induction cs with
  | nil => rfl
  | cons c t ih =>
    by_cases h : c = sep
    · subst h
      simp [splitOnChar, List.takeWhile_cons]
    · have hb : (c != sep) = true := by simp [bne, h]
      simp only [splitOnChar, if_neg h, List.takeWhile_cons, hb, if_true]
      simp only [List.headD_cons]
      rw [ih]

theorem splitOnChar_no_sep (sep : Char) (cs : List Char) (h : sep ∉ cs) :
    splitOnChar sep cs = [cs] := by
  induction cs with
  | nil => rfl
  | cons c t ih =>
    have hc : ¬c = sep := fun hh => h (hh ▸ List.mem_cons_self c t)
    have ht : sep ∉ t := fun hh => h (List.mem_cons_of_mem c hh)
    simp [splitOnChar, hc, ih ht]

theorem splitOnChar_append (sep : Char) (pre rest : List Char) (h : sep ∉ pre) :
    splitOnChar sep (pre ++ sep :: rest) = pre :: splitOnChar sep rest := by
  induction pre with
  | nil => simp [splitOnChar]
  | cons c t ih =>
    have hc : ¬c = sep := fun hh => h (hh ▸ List.mem_cons_self c t)
    have ht : sep ∉ t := fun hh => h (List.mem_cons_of_mem c hh)
    simp only [List.cons_append, splitOnChar, if_neg hc, List.append_eq]
    rw [ih ht]
    simp

theorem beginsWith_append_self (needle rest : List Char) :
    beginsWith needle (needle ++ rest) = true := by
  induction needle with
  | nil => rfl
  | cons c t ih => simp [beginsWith, ih]

theorem containsSeq_nil_needle (b : List Char) : containsSeq [] b = true := by
  cases b <;> simp [containsSeq, beginsWith]

theorem containsSeq_of_append (needle a b : List Char) :
    containsSeq needle (a ++ needle ++ b) = true := by
  induction a with
  | nil =>
    cases hn : needle with
    | nil => simpa using containsSeq_nil_needle b
    | cons c t =>
      have h := beginsWith_append_self (c :: t) b
      simp only [List.nil_append, List.cons_append] at *
      simp [containsSeq, h]
  | cons c t ih =>
    simp only [List.cons_append, containsSeq, List.append_eq]
    rw [ih]
    simp

/-- C5: the message the client signs is exactly the timestamp, the uppercased
method, and the path truncated at the first `?`; in particular paths
`"/x?a=1"` and `"/x"` produce the identical signing input — the signing
input excludes query parameters. -/
theorem C5_signing_message_excludes_query :
    (∀ t m p : String, signing_message t m p =
        t ++ pyUpper m ++ String.mk (p.toList.takeWhile (fun c => c != '?')))
    ∧ (∀ t m : String, signing_message t m ("/x?a=1") = signing_message t m ("/x")) := by
  constructor
  · intro t m p
    unfold signing_message
    rw [splitOnChar_headD]
  · intro t m
    unfold signing_message
    have h : (splitOnChar '?' (("/x?a=1" : String).toList)).headD [] =
        (splitOnChar '?' (("/x" : String).toList)).headD [] := by decide
    rw [h]

/-- C1: for non-null spot and non-null positive strike, `calculate_fair_value`
returns `round(min(50 + pct_diff * 15, 95))` when `pct_diff > 0` and
`round(max(50 + pct_diff * 15, 5))` otherwise, where
`pct_diff = (spot - strike) / strike * 100`; the result is an integer in
`[5, 95]`, equals 50 when spot = strike, is `None` when either input is
`None`, and ignores the time-to-expiry argument. -/
theorem C1_fair_value_formula :
    (∀ spot strike t : ℚ, 0 < strike →
      calculate_fair_value (some spot) (some strike) t =
        .ok (some (if (spot - strike) / strike * 100 > 0
          then pyRound (min (50 + (spot - strike) / strike * 100 * 15) 95)
          else pyRound (max (50 + (spot - strike) / strike * 100 * 15) 5))))
    ∧ (∀ spot strike t : ℚ, ∀ v : ℤ, 0 < strike →
      calculate_fair_value (some spot) (some strike) t = .ok (some v) → 5 ≤ v ∧ v ≤ 95)
    ∧ (∀ strike t : ℚ, 0 < strike →
      calculate_fair_value (some strike) (some strike) t = .ok (some 50))
    ∧ (∀ st : Option ℚ, ∀ t : ℚ, calculate_fair_value none st t = .ok none)
    ∧ (∀ sp : Option ℚ, ∀ t : ℚ, calculate_fair_value sp none t = .ok none)
    ∧ (∀ spot strike : Option ℚ, ∀ t t' : ℚ,
      calculate_fair_value spot strike t = calculate_fair_value spot strike t') := by
  refine ⟨?_, ?_, ?_, ?_, ?_, ?_⟩
  · intro spot strike t hs
    rw [cfv_eq spot t (ne_of_gt hs)]
    unfold fv_raw
    dsimp only
    by_cases h : (spot - strike) / strike * 100 > 0
    · rw [if_pos h, if_pos h]
    · rw [if_neg h, if_neg h]
  · intro spot strike t v hs h
    exact cfv_bounds (ne_of_gt hs) h
  · intro strike t hs
    have h0 : fv_raw strike strike = 50 := by
      unfold fv_raw
      dsimp only
      rw [sub_self]
      norm_num
    rw [cfv_eq strike t (ne_of_gt hs), h0]
    have h50 : pyRound (50 : ℚ) = 50 := by
      have := pyRound_intCast 50
      norm_num at this
      exact this
    rw [h50]
  · intro st t
    cases st <;> rfl
  · intro sp t
    cases sp <;> rfl
  · intro spot strike t t'
    cases strike <;> cases spot <;> rfl

theorem C1_witness : (0 : ℚ) < 100 ∧
    calculate_fair_value (some 100) (some 100) 15 = .ok (some 50) :=
  ⟨by norm_num, C1_fair_value_formula.2.2.1 100 15 (by norm_num)⟩

/-- C8: for fixed non-null positive strike, `calculate_fair_value` is
monotonically non-decreasing in the spot price; it returns 95 whenever the
percentage deviation above the strike is at least 3, returns 5 whenever the
deviation is at most -3, and never returns a value outside `[5, 95]`. -/
theorem C8_monotone_saturating :
    (∀ strike t s₁ s₂ : ℚ, ∀ v₁ v₂ : ℤ, 0 < strike → s₁ ≤ s₂ →
      calculate_fair_value (some s₁) (some strike) t = .ok (some v₁) →
      calculate_fair_value (some s₂) (some strike) t = .ok (some v₂) → v₁ ≤ v₂)
    ∧ (∀ spot strike t : ℚ, 0 < strike → 3 ≤ (spot - strike) / strike * 100 →
      calculate_fair_value (some spot) (some strike) t = .ok (some 95))
    ∧ (∀ spot strike t : ℚ, 0 < strike → (spot - strike) / strike * 100 ≤ -3 →
      calculate_fair_value (some spot) (some strike) t = .ok (some 5))
    ∧ (∀ spot strike t : ℚ, ∀ v : ℤ, 0 < strike →
      calculate_fair_value (some spot) (some strike) t = .ok (some v) → 5 ≤ v ∧ v ≤ 95) := by
  refine ⟨?_, ?_, ?_, ?_⟩
  · intro strike t s₁ s₂ v₁ v₂ hs hle h1 h2
    rw [cfv_eq s₁ t (ne_of_gt hs)] at h1
    rw [cfv_eq s₂ t (ne_of_gt hs)] at h2
    simp only [Except.ok.injEq, Option.some.injEq] at h1 h2
    rw [← h1, ← h2]
    exact pyRound_mono (fv_raw_mono hs hle)
  · intro spot strike t hs hdev
    rw [cfv_eq spot t (ne_of_gt hs)]
    have h1 : fv_raw spot strike = 95 := by
      unfold fv_raw
      dsimp only
      rw [if_pos (by linarith)]
      exact min_eq_right (by linarith)
    rw [h1]
    have h95 : pyRound (95 : ℚ) = 95 := by
      have := pyRound_intCast 95
      norm_num at this
      exact this
    rw [h95]
  · intro spot strike t hs hdev
    rw [cfv_eq spot t (ne_of_gt hs)]
    have h1 : fv_raw spot strike = 5 := by
      unfold fv_raw
      dsimp only
      rw [if_neg (by linarith)]
      exact max_eq_right (by linarith)
    rw [h1]
    have h5 : pyRound (5 : ℚ) = 5 := by
      have := pyRound_intCast 5
      norm_num at this
      exact this
    rw [h5]
  · intro spot strike t v hs h
    exact cfv_bounds (ne_of_gt hs) h

theorem C8_witness : (0 : ℚ) < 100 ∧ (3 : ℚ) ≤ (103 - 100) / 100 * 100 ∧
    calculate_fair_value (some 103) (some 100) 15 = .ok (some 95) :=
  ⟨by norm_num, by norm_num,
    C8_monotone_saturating.2.1 103 100 15 (by norm_num) (by norm_num)⟩

/-- C9: the division in `calculate_fair_value` is unguarded, so for every
non-null spot a strike of 0 raises `ZeroDivisionError` instead of returning
`None` or a value; under the precondition `strike ≠ 0` the function is total
and returns a value. -/
theorem C9_zero_strike_division :
    (∀ spot t : ℚ, calculate_fair_value (some spot) (some 0) t =
        .error PyErr.zeroDivisionError)
    ∧ (∀ spot strike t : ℚ, strike ≠ 0 →
        ∃ v : ℤ, calculate_fair_value (some spot) (some strike) t = .ok (some v)) := by
  constructor
  · intro spot t
    simp [calculate_fair_value]
  · intro spot strike t h
    exact ⟨pyRound (fv_raw spot strike), cfv_eq spot t h⟩

theorem C9_witness : (2 : ℚ) ≠ 0 ∧
    (∃ v : ℤ, calculate_fair_value (some 1) (some 2) 15 = .ok (some v)) :=
  ⟨by norm_num, C9_zero_strike_division.2 1 2 15 (by norm_num)⟩

theorem analyze_one_eq (prices : String → Option ℚ) (markets : List (String × Entry15))
    (coin : String) (m : Market15) (p s : ℚ) (fv : ℤ)
    (hl : List.lookup coin markets = some (Entry15.market m))
    (hp : prices coin = some p)
    (hs : m.strike = some s)
    (hf : calculate_fair_value (some p) (some s) 15 = .ok (some fv)) :
    analyze_one prices markets coin = .ok (
      (if fv > m.yes_ask + 5 then [buyOpp coin m p s fv] else [])
      ++ (if fv < m.yes_bid - 5 then [sellOpp coin m p s fv] else [])) := by
  simp only [analyze_one, hl, hp, hs, hf]

/-- C2: for an asset with a selected market and a non-null fair value,
`analyze_arbitrage` emits a `BUY_YES` opportunity with
`edge = fair_value - yes_ask` exactly when `fair_value > yes_ask + 5`, and a
`SELL_YES` opportunity with `edge = yes_bid - fair_value` exactly when
`fair_value < yes_bid - 5`; fair value 80 against ask 70 yields exactly one
`BUY_YES` with edge 10, fair value 30 against bid 40 yields exactly one
`SELL_YES` with edge 10, and fair value 55 against bid 50 / ask 60 yields no
opportunity. -/
theorem C2_opportunity_detection :
    (∀ (prices : String → Option ℚ) (markets : List (String × Entry15)) (coin : String)
        (m : Market15) (p s : ℚ) (fv : ℤ),
      List.lookup coin markets = some (Entry15.market m) →
      prices coin = some p →
      m.strike = some s →
      calculate_fair_value (some p) (some s) 15 = .ok (some fv) →
      analyze_one prices markets coin = .ok (
        (if fv > m.yes_ask + 5 then [buyOpp coin m p s fv] else [])
        ++ (if fv < m.yes_bid - 5 then [sellOpp coin m p s fv] else [])))
    ∧ (∀ (coin : String) (m : Market15) (p s : ℚ) (fv : ℤ),
        (buyOpp coin m p s fv).type = "BUY_YES" ∧
        (buyOpp coin m p s fv).edge = fv - m.yes_ask ∧
        (sellOpp coin m p s fv).type = "SELL_YES" ∧
        (sellOpp coin m p s fv).edge = m.yes_bid - fv)
    ∧ analyze_arbitrage pricesBuy [(("btc" : String), Entry15.market mktBuy)] =
        .ok [{ type := "BUY_YES", coin := "BTC", ticker := some ("TB"),
               current_price := 102, strike := 100, fair_value := 80,
               market_ask := some 70, market_bid := none, edge := 10 }]
    ∧ analyze_arbitrage pricesSell [(("eth" : String), Entry15.market mktSell)] =
        .ok [{ type := "SELL_YES", coin := "ETH", ticker := some ("TS"),
               current_price := 296, strike := 300, fair_value := 30,
               market_ask := none, market_bid := some 40, edge := 10 }]
    ∧ analyze_arbitrage pricesFlat [(("btc" : String), Entry15.market mktFlat)] = .ok [] := by
  refine ⟨analyze_one_eq, ?_, ?_, ?_, ?_⟩
  · intro coin m p s fv
    exact ⟨rfl, rfl, rfl, rfl⟩
  · have hf : calculate_fair_value (some 102) (some 100) 15 = .ok (some 80) := by
      norm_num [calculate_fair_value, pyRound, min_def, max_def]
    have hU : pyUpper ("btc") = "BTC" := by decide
    simp [analyze_arbitrage, analyze_one, List.lookup, pricesBuy, mktBuy, hf, buyOpp,
      sellOpp, hU]
  · have hf : calculate_fair_value (some 296) (some 300) 15 = .ok (some 30) := by
      norm_num [calculate_fair_value, pyRound, min_def, max_def]
    have hU : pyUpper ("eth") = "ETH" := by decide
    simp [analyze_arbitrage, analyze_one, List.lookup, pricesSell, mktSell, hf, buyOpp,
      sellOpp, hU]
  · have hf : calculate_fair_value (some 301) (some 300) 15 = .ok (some 55) := by
      norm_num [calculate_fair_value, pyRound, min_def, max_def]
    simp [analyze_arbitrage, analyze_one, List.lookup, pricesFlat, mktFlat, hf]

theorem C2_witness :
    List.lookup ("btc") [(("btc" : String), Entry15.market mktBuy)] =
      some (Entry15.market mktBuy) ∧
    pricesBuy ("btc") = some 102 ∧
    mktBuy.strike = some 100 ∧
    calculate_fair_value (some 102) (some 100) 15 = .ok (some 80) ∧
    analyze_one pricesBuy [(("btc" : String), Entry15.market mktBuy)] ("btc") =
      .ok ((if (80 : ℤ) > mktBuy.yes_ask + 5 then [buyOpp ("btc") mktBuy 102 100 80] else [])
        ++ (if (80 : ℤ) < mktBuy.yes_bid - 5 then [sellOpp ("btc") mktBuy 102 100 80] else [])) := by
  have hf : calculate_fair_value (some 102) (some 100) 15 = .ok (some 80) := by
    norm_num [calculate_fair_value, pyRound, min_def, max_def]
  exact ⟨by decide, rfl, rfl, hf,
    C2_opportunity_detection.1 pricesBuy [(("btc" : String), Entry15.market mktBuy)]
      ("btc") mktBuy 102 100 80 (by decide) rfl rfl hf⟩

/-- C10: for an asset whose selected market satisfies
`yes_bid ≤ yes_ask + 10`, `analyze_one` emits at most one opportunity: the
`BUY_YES` condition `fair_value > yes_ask + 5` and the `SELL_YES` condition
`fair_value < yes_bid - 5` cannot hold for the same fair value. -/
theorem C10_at_most_one_opportunity :
    (∀ (m : Market15) (fv : ℤ), m.yes_bid ≤ m.yes_ask + 10 →
      ¬(fv > m.yes_ask + 5 ∧ fv < m.yes_bid - 5))
    ∧ (∀ (prices : String → Option ℚ) (markets : List (String × Entry15))
        (coin : String) (m : Market15) (opps : List Opportunity),
      List.lookup coin markets = some (Entry15.market m) →
      m.yes_bid ≤ m.yes_ask + 10 →
      analyze_one prices markets coin = .ok opps →
      opps.length ≤ 1) := by
  constructor
  · intro m fv hb ⟨h1, h2⟩
    omega
  · intro prices markets coin m opps hl hb h
    simp only [analyze_one, hl] at h
    rcases hp : prices coin with _ | p
    · rw [hp] at h
      simp only [Except.ok.injEq] at h
      rw [← h]
      simp
    · rw [hp] at h
      dsimp only at h
      rcases hs : m.strike with _ | s
      · rw [hs] at h
        simp only [Except.ok.injEq] at h
        rw [← h]
        simp
      · rw [hs] at h
        dsimp only at h
        rcases hf : calculate_fair_value (some p) (some s) 15 with e | ov
        · rw [hf] at h
          exact absurd h (by simp)
        · rw [hf] at h
          rcases ov with _ | fv
          · simp only [Except.ok.injEq] at h
            rw [← h]
            simp
          · simp only [Except.ok.injEq] at h
            rw [← h]
            by_cases hbuy : fv > m.yes_ask + 5 <;> by_cases hsell : fv < m.yes_bid - 5
            · omega
            · simp [hbuy, hsell]
            · simp [hbuy, hsell]
            · simp [hbuy, hsell]

theorem C10_witness :
    List.lookup ("btc") [(("btc" : String), Entry15.market mktBuy)] =
      some (Entry15.market mktBuy) ∧
    mktBuy.yes_bid ≤ mktBuy.yes_ask + 10 ∧
    analyze_one pricesBuy [(("btc" : String), Entry15.market mktBuy)] ("btc") =
      .ok [buyOpp ("btc") mktBuy 102 100 80] ∧
    [buyOpp ("btc") mktBuy 102 100 80].length ≤ 1 := by
  have hf : calculate_fair_value (some 102) (some 100) 15 = .ok (some 80) := by
    norm_num [calculate_fair_value, pyRound, min_def, max_def]
  have ha : analyze_one pricesBuy [(("btc" : String), Entry15.market mktBuy)] ("btc") =
      .ok [buyOpp ("btc") mktBuy 102 100 80] := by
    simp [analyze_one, List.lookup, pricesBuy, mktBuy, hf, buyOpp, sellOpp]
  exact ⟨by decide, by decide, ha,
    C10_at_most_one_opportunity.2 pricesBuy [(("btc" : String), Entry15.market mktBuy)]
      ("btc") mktBuy [buyOpp ("btc") mktBuy 102 100 80] (by decide) (by decide) ha⟩

/-- C6: when one series' fetch raises and the other succeeds (with a market
passing the filter), `get_kalshi_15m_markets` stores the error string under
`<coin>_error` and still stores the healthy asset's entry, and
`analyze_arbitrage` on the result equals the analysis of the healthy asset
alone — one series' failure never prevents opportunities for the other. -/
theorem C6_error_isolation :
    ∀ (fetch : String → Except String (List RawMarket)) (prices : String → Option ℚ)
      (e : String) (ms : List RawMarket) (m : RawMarket),
    (fetch ("KXBTC15M") = .error e → fetch ("KXETH15M") = .ok ms →
      select15m ms = some m →
      get_kalshi_15m_markets fetch =
        [("btc_error", Entry15.err e), ("eth", Entry15.market (mkEntry15 m))]
      ∧ analyze_arbitrage prices (get_kalshi_15m_markets fetch) =
        analyze_one prices [(("eth" : String), Entry15.market (mkEntry15 m))] ("eth"))
    ∧ (fetch ("KXBTC15M") = .ok ms → fetch ("KXETH15M") = .error e →
      select15m ms = some m →
      get_kalshi_15m_markets fetch =
        [("btc", Entry15.market (mkEntry15 m)), ("eth_error", Entry15.err e)]
      ∧ analyze_arbitrage prices (get_kalshi_15m_markets fetch) =
        analyze_one prices [(("btc" : String), Entry15.market (mkEntry15 m))] ("btc")) := by
  intro fetch prices e ms m
  constructor
  · intro hb he hsel
    have hg : get_kalshi_15m_markets fetch =
        [("btc_error", Entry15.err e), ("eth", Entry15.market (mkEntry15 m))] := by
      simp only [get_kalshi_15m_markets, series15_step, hb, he, hsel]
      simp [show ("btc" : String) ++ "_error" = "btc_error" from rfl]
    refine ⟨hg, ?_⟩
    rw [hg]
    have h1 : analyze_one prices
        [("btc_error", Entry15.err e), ("eth", Entry15.market (mkEntry15 m))] ("btc") =
        .ok [] := by
      simp [analyze_one, List.lookup]
    have h2 : analyze_one prices
        [("btc_error", Entry15.err e), ("eth", Entry15.market (mkEntry15 m))] ("eth") =
        analyze_one prices [(("eth" : String), Entry15.market (mkEntry15 m))] ("eth") := by
      simp [analyze_one, List.lookup]
    simp only [analyze_arbitrage, h1, h2]
    rcases hx : analyze_one prices [(("eth" : String), Entry15.market (mkEntry15 m))] ("eth")
      with e2 | o2 <;> simp [hx]
  · intro hb he hsel
    have hg : get_kalshi_15m_markets fetch =
        [("btc", Entry15.market (mkEntry15 m)), ("eth_error", Entry15.err e)] := by
      simp only [get_kalshi_15m_markets, series15_step, hb, he, hsel]
      simp [show ("eth" : String) ++ "_error" = "eth_error" from rfl]
    refine ⟨hg, ?_⟩
    rw [hg]
    have h1 : analyze_one prices
        [("btc", Entry15.market (mkEntry15 m)), ("eth_error", Entry15.err e)] ("btc") =
        analyze_one prices [(("btc" : String), Entry15.market (mkEntry15 m))] ("btc") := by
      simp [analyze_one, List.lookup]
    have h2 : analyze_one prices
        [("btc", Entry15.market (mkEntry15 m)), ("eth_error", Entry15.err e)] ("eth") =
        .ok [] := by
      simp [analyze_one, List.lookup]
    simp only [analyze_arbitrage, h1, h2]
    rcases hx : analyze_one prices [(("btc" : String), Entry15.market (mkEntry15 m))] ("btc")
      with e2 | o2 <;> simp [hx]

theorem C6_witness :
    w6fetch ("KXBTC15M") = .error ("boom") ∧
    w6fetch ("KXETH15M") = .ok [w6raw] ∧
    select15m [w6raw] = some w6raw ∧
    (get_kalshi_15m_markets w6fetch =
      [("btc_error", Entry15.err ("boom")), ("eth", Entry15.market (mkEntry15 w6raw))]
    ∧ analyze_arbitrage pricesSell (get_kalshi_15m_markets w6fetch) =
      analyze_one pricesSell [(("eth" : String), Entry15.market (mkEntry15 w6raw))] ("eth")) :=
  ⟨by decide, by decide, by decide,
    (C6_error_isolation w6fetch pricesSell ("boom") [w6raw] w6raw).1
      (by decide) (by decide) (by decide)⟩

/-- C7: when the price fetch fails (the result carries the `"error"` key,
modeled as the error shape), `main` prints the error message and returns
`None`; the outcome is independent of both market-fetch oracles, i.e. the
cycle aborts before any market call and produces no report. -/
theorem C7_price_error_fatal :
    ∀ (e : String) (f fd f' fd' : String → Except String (List RawMarket)),
      main_model (.error e) f fd = .ok (some ("Error fetching prices: " ++ e), none)
      ∧ main_model (.error e) f fd = main_model (.error e) f' fd' := by
  intro e f fd f' fd'
  exact ⟨rfl, rfl⟩

/-- C3 counterexample: `place_order` performs no validation — an order with
side `"bogus"`, action `"nope"`, count `-5` and limit price 0 is built and
dispatched rather than rejected, and limit prices 0 and 100 are attached to
the price field; the claim's required rejections do not happen. -/
theorem C3_counterexample :
    place_order ("T") ("bogus") ("nope") (-5) ("limit") (some 0) =
      { ticker := "T", side := "bogus", action := "nope", count := -5, type := "limit",
        yes_price := some none, no_price := some none } ∧
    place_order ("T") ("yes") ("buy") 1 ("limit") (some 0) =
      { ticker := "T", side := "yes", action := "buy", count := 1, type := "limit",
        yes_price := some (some 0), no_price := some none } ∧
    place_order ("T") ("yes") ("buy") 1 ("limit") (some 100) =
      { ticker := "T", side := "yes", action := "buy", count := 1, type := "limit",
        yes_price := some (some 100), no_price := some none } := by
  refine ⟨?_, ?_, ?_⟩ <;> decide

/-- C3 (amended): `place_order` performs no argument validation; every
argument is forwarded as given.  For limit orders with a non-null price the
price is attached to `yes_price` when side is `"yes"` and to `no_price` when
side is `"no"` (the other field set to null); when the type is not
`"limit"` or the price is null no price field is attached (a market order's
price argument is ignored, not rejected). -/
theorem C3_place_order_amended :
    ∀ (tk s a : String) (c : ℤ) (ty : String) (p : ℤ) (pr : Option ℤ),
      ((place_order tk s a c ("limit") (some p)).yes_price
          = some (if s = "yes" then some p else none)
        ∧ (place_order tk s a c ("limit") (some p)).no_price
          = some (if s = "no" then some p else none))
      ∧ (ty ≠ "limit" →
          (place_order tk s a c ty (some p)).yes_price = none
          ∧ (place_order tk s a c ty (some p)).no_price = none)
      ∧ ((place_order tk s a c ty none).yes_price = none
        ∧ (place_order tk s a c ty none).no_price = none)
      ∧ ((place_order tk s a c ty pr).ticker = tk ∧ (place_order tk s a c ty pr).side = s
        ∧ (place_order tk s a c ty pr).action = a ∧ (place_order tk s a c ty pr).count = c
        ∧ (place_order tk s a c ty pr).type = ty) := by
  intro tk s a c ty p pr
  refine ⟨⟨?_, ?_⟩, ?_, ⟨rfl, rfl⟩, ?_⟩
  · simp [place_order]
  · simp [place_order]
  · intro h
    constructor <;> simp [place_order, h]
  · rcases pr with _ | q
    · exact ⟨rfl, rfl, rfl, rfl, rfl⟩
    · by_cases h : ty = "limit" <;> simp [place_order, h]

theorem C3_witness :
    ("market" : String) ≠ "limit" ∧
    (place_order ("T") ("yes") ("buy") 1 ("market") (some 99)).yes_price = none ∧
    (place_order ("T") ("yes") ("buy") 1 ("market") (some 99)).no_price = none ∧
    (place_order ("T") ("yes") ("buy") 1 ("limit") (some 99)).yes_price = some (some 99) := by
  have h := C3_place_order_amended ("T") ("yes") ("buy") 1 ("market") 99 none
  refine ⟨by decide, (h.2.1 (by decide)).1, (h.2.1 (by decide)).2, ?_⟩
  have h3 := (C3_place_order_amended ("T") ("yes") ("buy") 1 ("limit") 99 none).1.1
  simpa using h3

/-- C4 counterexample: the subtitle `"Price to beat:$42"` (no space before
the dollar sign) does not contain the claimed marker `"Price to beat: $"`,
yet the code extracts strike 42 rather than `None`: the source only checks
for `"Price to beat:"` and splits on the first `$` independently, so the
claim's "subtitle lacking the marker yields None" is false. -/
theorem C4_counterexample :
    containsSeq (("Price to beat: $").toList) (("Price to beat:$42" : String).toList) = false
    ∧ parse_strike ("Price to beat:$42") = some 42 := by
  constructor
  · decide
  · have h1 : containsSeq (("Price to beat:").toList)
        (("Price to beat:$42" : String).toList) = true := by decide
    have h2 : (splitOnChar '$' (("Price to beat:$42" : String).toList))[1]?
        = some (("42" : String).toList) := by decide
    have h3 : (("42" : String).toList).filter (fun c => c != ',') = ("42" : String).toList := by
      decide
    have h4 : pyFloatParts (("42" : String).toList) = some (false, 42, 0, 0) := by decide
    simp only [parse_strike, h1, if_true, h2, pyFloat, h3, h4, Option.map_some']
    norm_num

/-- C4 (amended): the marker the code tests for is `"Price to beat:"` (no
dollar sign), and the extracted text is whatever lies between the first and
second `$` of the subtitle.  For every subtitle of the form
`pre ++ "Price to beat: $" ++ n` where `pre` contains no `$` and `n` is a
numeric literal with optional thousands separators, the strike equals the
literal's value (e.g. `"Price to beat: $67,250.50"` yields 67250.50); every
subtitle not containing `"Price to beat:"`, and every subtitle whose
extracted text fails to parse, yields `None`, and no exception escapes. -/
theorem C4_strike_parsing_amended :
    (∀ pre n : String, '$' ∉ pre.toList → isNumLit n = true →
      parse_strike (pre ++ "Price to beat: $" ++ n) = some (numLitVal n))
    ∧ (∀ s : String, containsSeq (("Price to beat:").toList) s.toList = false →
      parse_strike s = none)
    ∧ (∀ (s : String) (part : List Char),
        containsSeq (("Price to beat:").toList) s.toList = true →
        (splitOnChar '$' s.toList)[1]? = some part →
        pyFloat (part.filter (fun c => c != ',')) = none →
        parse_strike s = none) := by
  refine ⟨?_, ?_, ?_⟩
  · intro pre n hpre hn
    simp only [isNumLit, Bool.and_eq_true] at hn
    obtain ⟨⟨h1, h2⟩, h3⟩ := hn
    have hmem : ∀ c ∈ n.toList, c ∈ numChars := by
      intro c hc
      exact of_decide_eq_true (List.all_eq_true.mp h2 c hc)
    have hnd : '$' ∉ n.toList := by
      intro hd
      have h4 := hmem '$' hd
      revert h4
      decide
    have hdata : (pre ++ "Price to beat: $" ++ n).toList
        = (pre.toList ++ ("Price to beat: ").toList) ++ '$' :: n.toList := by
      show (pre.toList ++ ("Price to beat: $").toList) ++ n.toList = _
      rw [show ("Price to beat: $").toList = ("Price to beat: ").toList ++ ['$'] from rfl]
      simp
    have hmarker : containsSeq (("Price to beat:").toList)
        ((pre ++ "Price to beat: $" ++ n).toList) = true := by
      have hd2 : (pre ++ "Price to beat: $" ++ n).toList
          = pre.toList ++ ("Price to beat:").toList ++ (' ' :: '$' :: n.toList) := by
        show (pre.toList ++ ("Price to beat: $").toList) ++ n.toList = _
        rw [show ("Price to beat: $").toList = ("Price to beat:").toList ++ [' ', '$'] from rfl]
        simp
      rw [hd2]
      exact containsSeq_of_append _ _ _
    have hnodollar : '$' ∉ pre.toList ++ ("Price to beat: ").toList := by
      intro hd
      rcases List.mem_append.mp hd with h | h
      · exact hpre h
      · revert h
        decide
    have hsplit : (splitOnChar '$' ((pre ++ "Price to beat: $" ++ n).toList))[1]?
        = some n.toList := by
      rw [hdata, splitOnChar_append '$' _ _ hnodollar, splitOnChar_no_sep '$' n.toList hnd]
      rfl
    obtain ⟨v, hv⟩ := Option.isSome_iff_exists.mp h3
    unfold parse_strike
    rw [hmarker]
    simp only [eq_self_iff_true, if_true]
    rw [hsplit]
    dsimp only
    rw [hv]
    have hv' : pyFloat (List.filter (fun c => c != ',') n.data) = some v := hv
    simp [numLitVal, hv']
  · intro s h
    unfold parse_strike
    rw [h]
    simp
  · intro s part hm hp hnone
    unfold parse_strike
    rw [hm]
    simp only [eq_self_iff_true, if_true]
    rw [hp]
    dsimp only
    exact hnone

theorem C4_witness :
    ('$' ∉ ("Current price 42. " : String).toList) ∧ isNumLit ("67,250.50") = true ∧
    parse_strike (("Current price 42. " : String) ++ "Price to beat: $" ++ "67,250.50") =
      some (numLitVal ("67,250.50")) :=
  ⟨by decide, by decide,
    C4_strike_parsing_amended.1 ("Current price 42. ") ("67,250.50")
      (by decide) (by decide)⟩
